/-
Verification of the `filesize` tool (Go): tree building, sorting, size
formatting and console rendering, shallowly embedded in Lean 4.

The embedding follows the source file that provides the `-html` flag
(the variant the specification describes): `FileInfo`, `buildFileTree` /
`buildFileTreeRecursive`, `sortFileTree`, `printFileTree`, `formatSize`.
-/
import Mathlib

set_option linter.unusedVariables false

/-- The `FileInfo` struct of the source: name, size (int64, modelled as `Int`
since no arithmetic in the claims overflows), directory flag, absolute path,
and the ordered child list. -/
inductive FileInfo : Type where
  | mk (name : String) (size : Int) (isDir : Bool) (path : String)
       (children : List FileInfo)

namespace FileInfo

def name : FileInfo → String
  | .mk n _ _ _ _ => n

def size : FileInfo → Int
  | .mk _ s _ _ _ => s

def isDir : FileInfo → Bool
  | .mk _ _ d _ _ => d

def path : FileInfo → String
  | .mk _ _ _ p _ => p

def children : FileInfo → List FileInfo
  | .mk _ _ _ _ cs => cs

end FileInfo

/-- The `SortType` enumeration of the source. -/
inductive SortType : Type where
  | SortByName
  | SortBySize
deriving DecidableEq

/-- `strings.ToLower`: lowercases letters; on ASCII data it maps `A`–`Z` to
`a`–`z`, which is what `Char.toLower` does character by character. -/
def goToLower (s : String) : String := ⟨s.data.map Char.toLower⟩

/-- Go `<` on strings compares the UTF-8 bytes lexicographically, which
coincides with lexicographic comparison of the code-point sequences. -/
def goStringLt (s t : String) : Bool := decide (s.data < t.data)

/-- The `less` closure passed to `sort.Slice` inside `sortFileTree`,
transcribed from the source.  For `SortBySize` the comparator is size
descending with no directory priority; for `SortByName` directories are
put first by an early `return a.IsDir` that is NOT subject to the final
`reverse` negation, and otherwise the comparison is case-insensitive
ascending on names. -/
def lessFn (sortType : SortType) (reverse : Bool) (a b : FileInfo) : Bool :=
  match sortType with
  | .SortBySize =>
      let result := decide (b.size < a.size)
      if reverse then !result else result
  | .SortByName =>
      if a.isDir != b.isDir then a.isDir
      else
        let result := goStringLt (goToLower a.name) (goToLower b.name)
        if reverse then !result else result

/-! ### A model of `sort.Slice`

`sort.Slice` runs an unspecified (unstable) comparison sort over the given
`less` function; its contract is only that the output is a permutation of the
input that is ordered with respect to `less` whenever `less` is a strict weak
order.  We model it by a concrete comparison sort over the same `less`
function (insertion sort) and prove exactly those contract facts. -/

/-- Insert `x` into `l`, placing it before the first element `y` with
`lt x y`. -/
def insertLt (lt : α → α → Bool) (x : α) : List α → List α
  | [] => [x]
  | y :: ys => if lt x y then x :: y :: ys else y :: insertLt lt x ys

/-- Comparison sort over a Go-style `less` function, modelling `sort.Slice`. -/
def sortSlice (lt : α → α → Bool) : List α → List α
  | [] => []
  | x :: xs => insertLt lt x (sortSlice lt xs)

/-! ### `sortFileTree`

The source first loops over `root.Children` recursing into every child with
`IsDir` set, then sorts the current `Children` slice with `sort.Slice` and
the `lessFn` comparator.  The in-place mutation is modelled by returning the
rebuilt tree. -/

mutual

def sortFileTree (sortType : SortType) (reverse : Bool) : FileInfo → FileInfo
  | .mk n s d p cs =>
      .mk n s d p (sortSlice (lessFn sortType reverse)
        (sortFileTreeChildren sortType reverse cs))

/-- The recursion loop of `sortFileTree`: children with `IsDir` set are sorted
recursively, the others are left untouched. -/
def sortFileTreeChildren (sortType : SortType) (reverse : Bool) :
    List FileInfo → List FileInfo
  | [] => []
  | c :: cs =>
      (if c.isDir then sortFileTree sortType reverse c else c) ::
        sortFileTreeChildren sortType reverse cs

end

/-! ### The filesystem model and `buildFileTree`

`buildFileTreeRecursive` performs I/O (`os.Stat`, `os.ReadDir`); we model the
relevant filesystem subtree as data.  A `file` is an entry whose `Stat`
succeeds and reports a regular file of the given size; a `dir` is an entry
whose `Stat` and `ReadDir` both succeed, listing the given entries;
`statError` is an entry whose `Stat` fails; `readDirError` is a directory
whose `Stat` succeeds but whose `ReadDir` fails. -/
inductive FSEntry : Type where
  | file (name : String) (size : Int)
  | dir (name : String) (entries : List FSEntry)
  | statError (name : String)
  | readDirError (name : String)

def FSEntry.name : FSEntry → String
  | .file n _ => n
  | .dir n _ => n
  | .statError n => n
  | .readDirError n => n

/-- `filepath.Join(dir, name)`. -/
def joinPath (dir nm : String) : String := dir ++ "/" ++ nm

/-- Sum of the `Size` fields of a list of nodes, as accumulated by the
`totalSize += child.Size` loop. -/
def sumSizes (cs : List FileInfo) : Int := (cs.map FileInfo.size).sum

mutual

/-- `buildFileTreeRecursive` from the source, as a function from the path and
the filesystem entry found there to the node it fills in (`some`) or the
error it returns (`none`).  A failing `Stat` and a failing `ReadDir` both
make the call return an error; a directory builds the surviving children and
sets its size to the accumulated sum of their sizes; a plain file records the
size reported by `Stat`. -/
def buildFileTreeRecursive (p : String) : FSEntry → Option FileInfo
  | .file n sz => some (.mk n sz false p [])
  | .dir n es =>
      let kids := buildChildren p es
      some (.mk n (sumSizes kids) true p kids)
  | .statError _ => none
  | .readDirError _ => none

/-- The entry loop of `buildFileTreeRecursive`: each entry is built at the
joined child path; entries whose recursive build fails are skipped
(`continue`), the others are appended in order. -/
def buildChildren (p : String) : List FSEntry → List FileInfo
  | [] => []
  | e :: es =>
      match buildFileTreeRecursive (joinPath p e.name) e with
      | none => buildChildren p es
      | some c => c :: buildChildren p es

end

/-- `buildFileTree` from the source: resolves the absolute path (modelled by
taking the already absolute path as a parameter, with the entry's name
standing for `filepath.Base`), then runs `buildFileTreeRecursive` on the root
node; a recursive error makes the whole build fail. -/
def buildFileTree (absPath : String) (e : FSEntry) : Option FileInfo :=
  buildFileTreeRecursive absPath e

/-! ### `formatSize`

The unit constants of the source. -/

def B : Int := 1
def KB : Int := 1024 * B
def MB : Int := 1024 * KB
def GB : Int := 1024 * MB
def TB : Int := 1024 * GB

/-- Round `num / den` (with `den > 0`, `num ≥ 0`) to the nearest integer,
ties to even — the rounding `strconv` applies when formatting a float with a
fixed precision. -/
def roundHalfEven (num den : Int) : Int :=
  let q := num / den
  let r := num % den
  if 2 * r < den then q
  else if den < 2 * r then q + 1
  else if q % 2 = 0 then q else q + 1

/-- Zero-pad a value in `[0, 100)` to two digits. -/
def pad2 (n : Int) : String := if n < 10 then "0" ++ toString n else toString n

/-- `fmt.Sprintf("%.2f", float64(size)/den)`.  Each unit branch divides by a
power of two, which is exact in binary floating point, and `float64(size)` is
exact for `|size| < 2^53`, so in that range the printed string is the decimal
rounding (nearest, ties to even) of the exact rational `size/den` to two
places, which is what this computes. -/
def fmtTwoDec (size den : Int) : String :=
  let cents := roundHalfEven (100 * size) den
  toString (cents / 100) ++ "." ++ pad2 (cents % 100)

/-- `formatSize` from the source: pick the largest binary unit not exceeding
the size, print with two decimals, or fall through to an integer byte count
(`%d B`). -/
def formatSize (size : Int) : String :=
  if size ≥ TB then fmtTwoDec size TB ++ " TB"
  else if size ≥ GB then fmtTwoDec size GB ++ " GB"
  else if size ≥ MB then fmtTwoDec size MB ++ " MB"
  else if size ≥ KB then fmtTwoDec size KB ++ " KB"
  else toString size ++ " B"

/-! ### `printFileTree`

The console renderer, as the list of lines it prints.  `main` invokes it as
`printFileTree(root, "", true)`. -/

mutual

def printFileTree (node : FileInfo) (pfx : String) (isLast : Bool) :
    List String :=
  match node with
  | .mk n s d _ cs =>
      let connector : String :=
        if pfx = "" then "" else if isLast then "└── " else "├── "
      let line :=
        pfx ++ connector ++ n ++ (if d then "/" else "") ++
          " (" ++ formatSize s ++ ")"
      let newPfx : String :=
        if pfx = "" then (if isLast then "    " else "│   ")
        else if isLast then pfx ++ "    " else pfx ++ "│   "
      line :: printFileTreeList cs newPfx

/-- The child loop of `printFileTree`: `isChildLast` is set exactly on the
final index. -/
def printFileTreeList (cs : List FileInfo) (pfx : String) : List String :=
  match cs with
  | [] => []
  | [c] => printFileTree c pfx true
  | c :: c' :: cs' => printFileTree c pfx false ++ printFileTreeList (c' :: cs') pfx

end

/-! ### Spec-side description of the rendering

Following the specification's words: each ancestor contributes four spaces
when it was the last sibling at its level and a vertical bar plus three
spaces otherwise; the node's connector is empty at the root, `└── ` for a
last sibling and `├── ` otherwise. -/

/-- The continuation marker one ancestor contributes to the prefix. -/
def ancMarker (ancWasLast : Bool) : String :=
  if ancWasLast then "    " else "│   "

/-- The prefix accumulated from the ancestors' last-sibling flags: the
concatenation, over the ancestors from the root down, of their markers. -/
def ancPrefix : List Bool → String
  | [] => ""
  | b :: l => ancMarker b ++ ancPrefix l

mutual

/-- Modelled from the spec: render a node given the list of its ancestors'
last-sibling flags (root: `[]`) and its own last-sibling flag. -/
def renderSpec (node : FileInfo) (anc : List Bool) (isLast : Bool) :
    List String :=
  match node with
  | .mk n s d _ cs =>
      let connector : String :=
        if anc.isEmpty then "" else if isLast then "└── " else "├── "
      let line :=
        ancPrefix anc ++ connector ++ n ++ (if d then "/" else "") ++
          " (" ++ formatSize s ++ ")"
      line :: renderSpecList cs (anc ++ [isLast])

def renderSpecList (cs : List FileInfo) (anc : List Bool) : List String :=
  match cs with
  | [] => []
  | [c] => renderSpec c anc true
  | c :: c' :: cs' => renderSpec c anc false ++ renderSpecList (c' :: cs') anc

end

/-! ### Tree-wide predicates -/

mutual

/-- All nodes of a tree in pre-order: the node itself and, recursively, the
nodes of its children. -/
def allNodes (t : FileInfo) : List FileInfo :=
  match t with
  | .mk n s d p cs => .mk n s d p cs :: allNodesList cs

def allNodesList (cs : List FileInfo) : List FileInfo :=
  match cs with
  | [] => []
  | c :: cs' => allNodes c ++ allNodesList cs'

end

mutual

/-- Well-formed trees: only directory nodes carry children.  Every tree
`buildFileTree` produces is of this shape. -/
def wfTree (t : FileInfo) : Bool :=
  match t with
  | .mk _ _ d _ cs => (d || cs.isEmpty) && wfForest cs

def wfForest (cs : List FileInfo) : Bool :=
  match cs with
  | [] => true
  | c :: cs' => wfTree c && wfForest cs'

end

mutual

/-- The size invariant: every directory node's `Size` equals the sum of its
children's `Size` fields. -/
def goodSizes (t : FileInfo) : Bool :=
  match t with
  | .mk _ s d _ cs => (!d || (s == sumSizes cs)) && goodSizesList cs

def goodSizesList (cs : List FileInfo) : Bool :=
  match cs with
  | [] => true
  | c :: cs' => goodSizes c && goodSizesList cs'

end

/-- The observable fields of a node apart from its child list: name, size,
directory flag, path. -/
def nodeKey (t : FileInfo) : String × Int × Bool × String :=
  (t.name, t.size, t.isDir, t.path)

/-! ### Concrete example trees used by the testable properties -/

/-- The `{b.txt, A/, a.txt}` sibling set of the name-sort example. -/
def nameExample : FileInfo :=
  .mk "r" 7 true "/r"
    [.mk "b.txt" 4 false "/r/b.txt" [],
     .mk "A" 0 true "/r/A" [],
     .mk "a.txt" 3 false "/r/a.txt" []]

/-- The `{x:10, y:30, z:20}` sibling set of the size-sort example; `x` is a
directory, so the example also shows that the size sort gives directories no
priority. -/
def sizeExample : FileInfo :=
  .mk "r" 60 true "/r"
    [.mk "x" 10 true "/r/x" [],
     .mk "y" 30 false "/r/y" [],
     .mk "z" 20 false "/r/z" []]

/-- A directory `A` next to a file `b.txt`: the input on which the claimed
uniform reversal of the name comparator fails. -/
def reverseExample : FileInfo :=
  .mk "r" 4 true "/r"
    [.mk "A" 0 true "/r/A" [],
     .mk "b.txt" 4 false "/r/b.txt" []]

/-! ## Theorems -/

namespace FileInfo

@[simp] theorem name_mk (n s d p cs) : name (.mk n s d p cs) = n := rfl
@[simp] theorem size_mk (n s d p cs) : size (.mk n s d p cs) = s := rfl
@[simp] theorem isDir_mk (n s d p cs) : isDir (.mk n s d p cs) = d := rfl
@[simp] theorem path_mk (n s d p cs) : path (.mk n s d p cs) = p := rfl
@[simp] theorem children_mk (n s d p cs) : children (.mk n s d p cs) = cs := rfl

end FileInfo

theorem insertLt_perm (lt : α → α → Bool) (x : α) (l : List α) :
    List.Perm (insertLt lt x l) (x :: l) := by
  induction l with
  | nil => simp [insertLt]
  | cons y ys ih =>
      by_cases h : lt x y = true
      · simp [insertLt, h]
      · simp only [insertLt, h, if_false, Bool.false_eq_true]
        exact (ih.cons y).trans (List.Perm.swap x y ys)

theorem sortSlice_perm (lt : α → α → Bool) (l : List α) :
    List.Perm (sortSlice lt l) l := by
  induction l with
  | nil => simp [sortSlice]
  | cons x xs ih => exact (insertLt_perm lt x (sortSlice lt xs)).trans (ih.cons x)

theorem mem_sortSlice (lt : α → α → Bool) (l : List α) (x : α) :
    x ∈ sortSlice lt l ↔ x ∈ l :=
  (sortSlice_perm lt l).mem_iff

theorem insertLt_pairwise (lt : α → α → Bool)
    (htot : ∀ a b, lt a b = true → lt b a = false)
    (htrans : ∀ a b c, lt b a = false → lt c b = false → lt c a = false)
    (x : α) (l : List α) (h : l.Pairwise (fun a b => lt b a = false)) :
    (insertLt lt x l).Pairwise (fun a b => lt b a = false) := by
  induction l with
  | nil => simp [insertLt]
  | cons y ys ih =>
      rcases List.pairwise_cons.1 h with ⟨hy, hys⟩
      by_cases hxy : lt x y = true
      · simp only [insertLt, hxy, if_true]
        refine List.pairwise_cons.2 ⟨?_, h⟩
        intro z hz
        rcases List.mem_cons.1 hz with hz' | hz'
        · exact hz' ▸ htot x y hxy
        · exact htrans x y z (htot x y hxy) (hy z hz')
      · have hxy' : lt x y = false := by
          cases hv : lt x y
          · rfl
          · exact absurd hv hxy
        simp only [insertLt, hxy, if_false, Bool.false_eq_true]
        refine List.pairwise_cons.2 ⟨?_, ih hys⟩
        intro z hz
        rcases List.mem_cons.1 ((insertLt_perm lt x ys).mem_iff.1 hz) with hz' | hz'
        · exact hz' ▸ hxy'
        · exact hy z hz'

theorem sortSlice_pairwise (lt : α → α → Bool)
    (htot : ∀ a b, lt a b = true → lt b a = false)
    (htrans : ∀ a b c, lt b a = false → lt c b = false → lt c a = false)
    (l : List α) :
    (sortSlice lt l).Pairwise (fun a b => lt b a = false) := by
  induction l with
  | nil => simp [sortSlice]
  | cons x xs ih => exact insertLt_pairwise lt htot htrans x (sortSlice lt xs) ih

theorem insertLt_map (lt : α → α → Bool) (f : α → α)
    (hf : ∀ a b, lt (f a) (f b) = lt a b) (x : α) (l : List α) :
    insertLt lt (f x) (l.map f) = (insertLt lt x l).map f := by
  induction l with
  | nil => simp [insertLt]
  | cons y ys ih =>
      by_cases h : lt x y = true
      · simp [insertLt, hf, h]
      · have h' : lt x y = false := by
          cases hv : lt x y
          · rfl
          · exact absurd hv h
        simp [insertLt, hf, h', ih]

theorem sortSlice_map (lt : α → α → Bool) (f : α → α)
    (hf : ∀ a b, lt (f a) (f b) = lt a b) (l : List α) :
    sortSlice lt (l.map f) = (sortSlice lt l).map f := by
  induction l with
  | nil => simp [sortSlice]
  | cons x xs ih => simp [sortSlice, ih, insertLt_map lt f hf]

@[simp] theorem sortFileTree_mk (st : SortType) (rev : Bool) (n s d p cs) :
    sortFileTree st rev (.mk n s d p cs) =
      .mk n s d p (sortSlice (lessFn st rev) (sortFileTreeChildren st rev cs)) :=
  rfl

@[simp] theorem sortFileTreeChildren_nil (st : SortType) (rev : Bool) :
    sortFileTreeChildren st rev [] = [] := rfl

@[simp] theorem sortFileTreeChildren_cons (st : SortType) (rev : Bool) (c cs) :
    sortFileTreeChildren st rev (c :: cs) =
      (if c.isDir then sortFileTree st rev c else c) ::
        sortFileTreeChildren st rev cs := rfl

@[simp] theorem buildFileTreeRecursive_file (p n sz) :
    buildFileTreeRecursive p (.file n sz) = some (.mk n sz false p []) := rfl

@[simp] theorem buildFileTreeRecursive_dir (p n es) :
    buildFileTreeRecursive p (.dir n es) =
      some (.mk n (sumSizes (buildChildren p es)) true p (buildChildren p es)) :=
  rfl

@[simp] theorem buildFileTreeRecursive_statError (p n) :
    buildFileTreeRecursive p (.statError n) = none := rfl

@[simp] theorem buildFileTreeRecursive_readDirError (p n) :
    buildFileTreeRecursive p (.readDirError n) = none := rfl

@[simp] theorem buildChildren_nil (p) : buildChildren p [] = [] := rfl

theorem buildChildren_cons (p e es) :
    buildChildren p (e :: es) =
      match buildFileTreeRecursive (joinPath p e.name) e with
      | none => buildChildren p es
      | some c => c :: buildChildren p es := rfl

/-! ### Comparator facts -/

/-- The forward name comparator, characterised: false exactly when the pair
is already acceptable in this order (claim relation of the name sort). -/
theorem lessFn_name_false_iff (a b : FileInfo) :
    lessFn .SortByName false a b = false ↔
      (a.isDir = false ∧ b.isDir = true) ∨
        (a.isDir = b.isDir ∧
          ¬ (goToLower a.name).data < (goToLower b.name).data) := by
  cases ha : a.isDir <;> cases hb : b.isDir <;>
    simp [lessFn, goStringLt, ha, hb]

/-- The forward size comparator, characterised. -/
theorem lessFn_size_false_iff (a b : FileInfo) :
    lessFn .SortBySize false a b = false ↔ a.size ≤ b.size := by
  simp [lessFn, not_lt]

theorem lessFn_name_asymm (a b : FileInfo)
    (h : lessFn .SortByName false a b = true) :
    lessFn .SortByName false b a = false := by
  rw [lessFn_name_false_iff]
  cases ha : a.isDir <;> cases hb : b.isDir <;>
    simp [lessFn, goStringLt, ha, hb] at h ⊢
  · exact le_of_lt h
  · exact le_of_lt h

theorem lessFn_name_negtrans (a b c : FileInfo)
    (h1 : lessFn .SortByName false b a = false)
    (h2 : lessFn .SortByName false c b = false) :
    lessFn .SortByName false c a = false := by
  rw [lessFn_name_false_iff] at h1 h2 ⊢
  rcases h1 with ⟨hb, ha⟩ | ⟨hab, h1'⟩
  · rcases h2 with ⟨hc, hb'⟩ | ⟨hcb, h2'⟩
    · exact absurd hb' (by simp [hb])
    · exact Or.inl ⟨hcb.trans hb, ha⟩
  · rcases h2 with ⟨hc, hb'⟩ | ⟨hcb, h2'⟩
    · exact Or.inl ⟨hc, hb' ▸ hab.symm⟩
    · exact Or.inr ⟨hcb.trans hab,
        not_lt.2 (le_trans (not_lt.1 h1') (not_lt.1 h2'))⟩

theorem lessFn_size_asymm (a b : FileInfo)
    (h : lessFn .SortBySize false a b = true) :
    lessFn .SortBySize false b a = false := by
  simp [lessFn] at h
  rw [lessFn_size_false_iff]
  exact le_of_lt h

theorem lessFn_size_negtrans (a b c : FileInfo)
    (h1 : lessFn .SortBySize false b a = false)
    (h2 : lessFn .SortBySize false c b = false) :
    lessFn .SortBySize false c a = false := by
  rw [lessFn_size_false_iff] at h1 h2 ⊢
  exact le_trans h2 h1

/-- `lessFn` only reads the `Name`, `Size` and `IsDir` fields. -/
theorem lessFn_congr (st : SortType) (rev : Bool) (a b a' b' : FileInfo)
    (han : a'.name = a.name) (has : a'.size = a.size) (had : a'.isDir = a.isDir)
    (hbn : b'.name = b.name) (hbs : b'.size = b.size) (hbd : b'.isDir = b.isDir) :
    lessFn st rev a' b' = lessFn st rev a b := by
  cases st <;> simp [lessFn, han, has, had, hbn, hbs, hbd]

/-! ### `sortFileTree` structure -/

/-- Sorting preserves every field of the node except the order inside its
child list. -/
theorem sortFileTree_fields (st : SortType) (rev : Bool) (t : FileInfo) :
    (sortFileTree st rev t).name = t.name ∧
      (sortFileTree st rev t).size = t.size ∧
      (sortFileTree st rev t).isDir = t.isDir ∧
      (sortFileTree st rev t).path = t.path := by
  cases t with
  | mk n s d p cs => simp

/-- The recursion loop is an elementwise map. -/
theorem sortFileTreeChildren_eq_map (st : SortType) (rev : Bool)
    (cs : List FileInfo) :
    sortFileTreeChildren st rev cs =
      cs.map (fun c => if c.isDir then sortFileTree st rev c else c) := by
  induction cs with
  | nil => rfl
  | cons c cs ih => simp [ih]

/-- The per-child recursion step preserves `lessFn`. -/
theorem lessFn_sortStep (st : SortType) (rev : Bool) (a b : FileInfo) :
    lessFn st rev (if a.isDir then sortFileTree st rev a else a)
        (if b.isDir then sortFileTree st rev b else b) =
      lessFn st rev a b := by
  apply lessFn_congr <;>
    first
      | (by_cases ha : a.isDir = true <;>
          simp [ha, (sortFileTree_fields st rev a).1,
            (sortFileTree_fields st rev a).2.1,
            (sortFileTree_fields st rev a).2.2.1,
            (sortFileTree_fields st rev a).2.2.2])
      | (by_cases hb : b.isDir = true <;>
          simp [hb, (sortFileTree_fields st rev b).1,
            (sortFileTree_fields st rev b).2.1,
            (sortFileTree_fields st rev b).2.2.1,
            (sortFileTree_fields st rev b).2.2.2])

/-! ### `allNodes`, `wfTree` facts -/

theorem allNodes_mk (n s d p cs) :
    allNodes (.mk n s d p cs) = .mk n s d p cs :: allNodesList cs := by
  simp [allNodes]

theorem allNodesList_eq (cs : List FileInfo) :
    allNodesList cs = cs.flatMap allNodes := by
  induction cs with
  | nil => simp [allNodesList]
  | cons c cs ih => simp [allNodesList, ih]

theorem mem_allNodesList (n : FileInfo) (cs : List FileInfo) :
    n ∈ allNodesList cs ↔ ∃ c ∈ cs, n ∈ allNodes c := by
  rw [allNodesList_eq]
  simp

theorem self_mem_allNodes (t : FileInfo) : t ∈ allNodes t := by
  cases t with
  | mk n s d p cs => rw [allNodes_mk]; exact List.mem_cons_self _ _

theorem wfTree_mk (n s d p cs) :
    wfTree (.mk n s d p cs) = ((d || cs.isEmpty) && wfForest cs) := by
  simp [wfTree]

theorem wfForest_mem (c : FileInfo) (cs : List FileInfo)
    (hc : c ∈ cs) (h : wfForest cs = true) : wfTree c = true := by
  induction cs with
  | nil => cases hc
  | cons c' cs' ih =>
      simp only [wfForest, Bool.and_eq_true] at h
      rcases List.mem_cons.1 hc with h' | h'
      · exact h' ▸ h.1
      · exact ih h' h.2

/-! ### Sortedness of every level of a sorted well-formed tree -/

mutual

theorem sorted_allNodes (st : SortType)
    (hasy : ∀ a b, lessFn st false a b = true → lessFn st false b a = false)
    (htr : ∀ a b c, lessFn st false b a = false →
      lessFn st false c b = false → lessFn st false c a = false) :
    ∀ t : FileInfo, wfTree t = true →
      ∀ n ∈ allNodes (sortFileTree st false t),
        n.children.Pairwise (fun a b => lessFn st false b a = false)
  | .mk nm s d p cs => by
      intro hwf n hn
      rw [sortFileTree_mk, allNodes_mk] at hn
      rcases List.mem_cons.1 hn with h | h
      · subst h
        simp only [FileInfo.children_mk]
        exact sortSlice_pairwise _ hasy htr _
      · rw [wfTree_mk, Bool.and_eq_true] at hwf
        rcases (mem_allNodesList n _).1 h with ⟨c, hc, hnc⟩
        have hc' : c ∈ sortFileTreeChildren st false cs :=
          (mem_sortSlice _ _ c).1 hc
        exact sorted_allNodesList st hasy htr cs hwf.2 n
          ((mem_allNodesList n _).2 ⟨c, hc', hnc⟩)

theorem sorted_allNodesList (st : SortType)
    (hasy : ∀ a b, lessFn st false a b = true → lessFn st false b a = false)
    (htr : ∀ a b c, lessFn st false b a = false →
      lessFn st false c b = false → lessFn st false c a = false) :
    ∀ cs : List FileInfo, wfForest cs = true →
      ∀ n ∈ allNodesList (sortFileTreeChildren st false cs),
        n.children.Pairwise (fun a b => lessFn st false b a = false)
  | [] => by intro _ n hn; simp [allNodesList] at hn
  | c :: cs' => by
      intro hwf n hn
      simp only [wfForest, Bool.and_eq_true] at hwf
      rw [sortFileTreeChildren_cons] at hn
      simp only [allNodesList, List.mem_append] at hn
      rcases hn with hn | hn
      · by_cases hd : c.isDir = true
        · rw [if_pos hd] at hn
          exact sorted_allNodes st hasy htr c hwf.1 n hn
        · rw [if_neg hd] at hn
          have hempty : c.children = [] := by
            cases c with
            | mk n2 s2 d2 p2 cs2 =>
                rw [wfTree_mk, Bool.and_eq_true, Bool.or_eq_true] at hwf
                rcases hwf.1.1 with h' | h'
                · exact absurd h' (by simpa using hd)
                · simpa using h'
          cases c with
          | mk n2 s2 d2 p2 cs2 =>
              simp only [FileInfo.children_mk] at hempty
              subst hempty
              rw [allNodes_mk] at hn
              rcases List.mem_cons.1 hn with h' | h'
              · subst h'; simp
              · simp [allNodesList] at h'
      · exact sorted_allNodesList st hasy htr cs' hwf.2 n hn

end

/-! ### Size invariant of built trees -/

mutual

theorem buildRec_goodSizes :
    ∀ (p : String) (e : FSEntry) (t : FileInfo),
      buildFileTreeRecursive p e = some t → goodSizes t = true
  | p, .file n sz => by
      intro t ht
      rw [buildFileTreeRecursive_file] at ht
      cases ht
      simp [goodSizes, goodSizesList]
  | p, .dir n es => by
      intro t ht
      rw [buildFileTreeRecursive_dir] at ht
      cases ht
      simp only [goodSizes, Bool.and_eq_true]
      exact ⟨by simp, buildChildren_goodSizes p es⟩
  | p, .statError n => by intro t ht; cases ht
  | p, .readDirError n => by intro t ht; cases ht

theorem buildChildren_goodSizes :
    ∀ (p : String) (es : List FSEntry),
      goodSizesList (buildChildren p es) = true
  | p, [] => rfl
  | p, e :: es => by
      rw [buildChildren_cons]
      cases hb : buildFileTreeRecursive (joinPath p e.name) e with
      | none => exact buildChildren_goodSizes p es
      | some c =>
          simp only [goodSizesList, Bool.and_eq_true]
          exact ⟨buildRec_goodSizes _ e c hb, buildChildren_goodSizes p es⟩

end

/-! ### Built trees are well formed -/

mutual

theorem buildRec_wfTree :
    ∀ (p : String) (e : FSEntry) (t : FileInfo),
      buildFileTreeRecursive p e = some t → wfTree t = true
  | p, .file n sz => by
      intro t ht
      rw [buildFileTreeRecursive_file] at ht
      cases ht
      simp [wfTree, wfForest]
  | p, .dir n es => by
      intro t ht
      rw [buildFileTreeRecursive_dir] at ht
      cases ht
      rw [wfTree_mk, Bool.and_eq_true]
      exact ⟨by simp, buildChildren_wfForest p es⟩
  | p, .statError n => by intro t ht; cases ht
  | p, .readDirError n => by intro t ht; cases ht

theorem buildChildren_wfForest :
    ∀ (p : String) (es : List FSEntry),
      wfForest (buildChildren p es) = true
  | p, [] => rfl
  | p, e :: es => by
      rw [buildChildren_cons]
      cases hb : buildFileTreeRecursive (joinPath p e.name) e with
      | none => exact buildChildren_wfForest p es
      | some c =>
          simp only [wfForest, Bool.and_eq_true]
          exact ⟨buildRec_wfTree _ e c hb, buildChildren_wfForest p es⟩

end

/-! ### The console renderer follows the ancestor-marker description -/

theorem ancMarker_length (b : Bool) : (ancMarker b).length = 4 := by
  cases b <;> rfl

theorem ancPrefix_eq_empty_iff (anc : List Bool) :
    ancPrefix anc = "" ↔ anc = [] := by
  cases anc with
  | nil => simp [ancPrefix]
  | cons b l =>
      simp only [ancPrefix, iff_false, List.cons_ne_nil]
      intro h
      have hlen := congrArg String.length h
      rw [String.length_append, ancMarker_length] at hlen
      simp at hlen

theorem ancPrefix_snoc (l : List Bool) (b : Bool) :
    ancPrefix (l ++ [b]) = ancPrefix l ++ ancMarker b := by
  induction l with
  | nil => simp [ancPrefix, String.empty_append, String.append_empty]
  | cons b' l' ih => simp [ancPrefix, ih, String.append_assoc]

theorem newPfx_eq (anc : List Bool) (isLast : Bool) :
    (if ancPrefix anc = "" then (if isLast then "    " else "│   ")
      else if isLast then ancPrefix anc ++ "    "
      else ancPrefix anc ++ "│   ") = ancPrefix (anc ++ [isLast]) := by
  rw [ancPrefix_snoc]
  cases anc with
  | nil =>
      simp only [ancPrefix_eq_empty_iff, if_pos rfl]
      cases isLast <;> simp [ancPrefix, ancMarker, String.empty_append]
  | cons b l =>
      rw [if_neg (by rw [ancPrefix_eq_empty_iff]; exact List.cons_ne_nil b l)]
      cases isLast <;> simp [ancMarker]

theorem connector_eq (anc : List Bool) (isLast : Bool) :
    (if ancPrefix anc = "" then ""
      else if isLast then "└── " else "├── " : String) =
    (if anc.isEmpty then "" else if isLast then "└── " else "├── ") := by
  cases anc with
  | nil => simp [ancPrefix]
  | cons b l =>
      rw [if_neg (by rw [ancPrefix_eq_empty_iff]; exact List.cons_ne_nil b l)]
      simp

mutual

theorem printEq :
    ∀ (t : FileInfo) (anc : List Bool) (isLast : Bool),
      printFileTree t (ancPrefix anc) isLast = renderSpec t anc isLast
  | .mk n s d p cs => by
      intro anc isLast
      simp only [printFileTree, renderSpec]
      rw [connector_eq, newPfx_eq]
      exact congrArg _ (printEqList cs (anc ++ [isLast]))

theorem printEqList :
    ∀ (cs : List FileInfo) (anc : List Bool),
      printFileTreeList cs (ancPrefix anc) = renderSpecList cs anc
  | [], anc => rfl
  | [c], anc => by
      simp only [printFileTreeList, renderSpecList]
      exact printEq c anc true
  | c :: c' :: cs', anc => by
      simp only [printFileTreeList, renderSpecList]
      rw [printEq c anc false, printEqList (c' :: cs') anc]

end

/-! ### Remaining bridge lemmas -/

mutual

theorem goodSizes_allNodes :
    ∀ t : FileInfo, goodSizes t = true →
      ∀ n ∈ allNodes t, n.isDir = true → n.size = sumSizes n.children
  | .mk nm s d p cs => by
      intro hg n hn hd
      simp only [goodSizes, Bool.and_eq_true] at hg
      rw [allNodes_mk] at hn
      rcases List.mem_cons.1 hn with h | h
      · subst h
        simp only [FileInfo.isDir_mk] at hd
        subst hd
        simp only [Bool.not_true, Bool.false_or, beq_iff_eq] at hg
        simpa using hg.1
      · exact goodSizesList_allNodes cs hg.2 n h hd

theorem goodSizesList_allNodes :
    ∀ cs : List FileInfo, goodSizesList cs = true →
      ∀ n ∈ allNodesList cs, n.isDir = true → n.size = sumSizes n.children
  | [] => by intro _ n hn; simp [allNodesList] at hn
  | c :: cs' => by
      intro hg n hn hd
      simp only [goodSizesList, Bool.and_eq_true] at hg
      simp only [allNodesList, List.mem_append] at hn
      rcases hn with h | h
      · exact goodSizes_allNodes c hg.1 n h hd
      · exact goodSizesList_allNodes cs' hg.2 n h hd

end

theorem buildChildren_skip (p : String) (es1 es2 : List FSEntry) (e : FSEntry)
    (h : buildFileTreeRecursive (joinPath p (FSEntry.name e)) e = none) :
    buildChildren p (es1 ++ e :: es2) = buildChildren p (es1 ++ es2) := by
  induction es1 with
  | nil => simp only [List.nil_append]; rw [buildChildren_cons, h]
  | cons e' es1' ih =>
      simp only [List.cons_append]
      rw [buildChildren_cons, buildChildren_cons, ih]

/-- The claim's acceptable-order relation for the name sort is what the
comparator's falsity says of the swapped pair. -/
theorem nameRel_of_lessFn (a b : FileInfo)
    (h : lessFn .SortByName false b a = false) :
    (a.isDir = true ∧ b.isDir = false) ∨
      (a.isDir = b.isDir ∧
        (goToLower a.name).data ≤ (goToLower b.name).data) := by
  rw [lessFn_name_false_iff] at h
  rcases h with ⟨hb, ha⟩ | ⟨hba, h'⟩
  · exact Or.inl ⟨ha, hb⟩
  · exact Or.inr ⟨hba.symm, not_lt.1 h'⟩

/-- The per-child recursion step preserves `nodeKey`. -/
theorem nodeKey_sortStep (st : SortType) (rev : Bool) (c : FileInfo) :
    nodeKey (if c.isDir then sortFileTree st rev c else c) = nodeKey c := by
  by_cases hd : c.isDir = true
  · rcases sortFileTree_fields st rev c with ⟨h1, h2, h3, h4⟩
    simp [hd, nodeKey, h1, h2, h3, h4]
  · simp [hd]

/-! ## The claims -/

/-- C1: For every tree returned by `buildFileTree`, every directory node's
`Size` equals the sum of the `Size` fields of the children actually present
in its `Children` list. -/
theorem filesize_C1 :
    ∀ (p : String) (e : FSEntry) (t : FileInfo),
      buildFileTree p e = some t →
      ∀ n ∈ allNodes t, n.isDir = true → n.size = sumSizes n.children :=
  fun p e t h => goodSizes_allNodes t (buildRec_goodSizes p e t h)

/-- Witness for C1 at a two-file directory. -/
theorem filesize_C1_witness :
    (FileInfo.mk "r" 7 true "/r"
        [.mk "a" 3 false "/r/a" [], .mk "b" 4 false "/r/b" []]).size =
      sumSizes (FileInfo.mk "r" 7 true "/r"
        [.mk "a" 3 false "/r/a" [], .mk "b" 4 false "/r/b" []]).children :=
  filesize_C1 "/r" (.dir "r" [.file "a" 3, .file "b" 4]) _ rfl _
    (self_mem_allNodes _) rfl

/-- C2: `sortFileTree` with the name key and `reverse = false` orders every
directory's children with all directories before all files and, within a
type, case-insensitively ascending names; the siblings `{b.txt, A/, a.txt}`
come out as `[A/, a.txt, b.txt]`. -/
theorem filesize_C2 :
    (∀ t : FileInfo, wfTree t = true →
      ∀ n ∈ allNodes (sortFileTree .SortByName false t),
        n.children.Pairwise (fun a b =>
          (a.isDir = true ∧ b.isDir = false) ∨
            (a.isDir = b.isDir ∧
              (goToLower a.name).data ≤ (goToLower b.name).data))) ∧
    (sortFileTree .SortByName false nameExample).children.map FileInfo.name =
      ["A", "a.txt", "b.txt"] := by
  constructor
  · intro t hwf n hn
    exact (sorted_allNodes .SortByName lessFn_name_asymm lessFn_name_negtrans
      t hwf n hn).imp (fun {a b} h => nameRel_of_lessFn a b h)
  · decide

/-- Witness for C2: the sorted example's root satisfies the ordering. -/
theorem filesize_C2_witness :
    (sortFileTree .SortByName false nameExample).children.Pairwise (fun a b =>
      (a.isDir = true ∧ b.isDir = false) ∨
        (a.isDir = b.isDir ∧
          (goToLower a.name).data ≤ (goToLower b.name).data)) := by
  have h := filesize_C2.1 nameExample (by decide)
    (sortFileTree .SortByName false nameExample) (self_mem_allNodes _)
  exact h

/-- C3: `sortFileTree` with the size key applies no directory priority and
orders every directory's children by descending byte size; the sibling sizes
`{x:10, y:30, z:20}` come out as `[y, z, x]`, and `[x, z, y]` under
`reverse = true` (here `x` is a directory, so the forward order also shows
the absence of a directory priority). -/
theorem filesize_C3 :
    (∀ t : FileInfo, wfTree t = true →
      ∀ n ∈ allNodes (sortFileTree .SortBySize false t),
        n.children.Pairwise (fun a b => b.size ≤ a.size)) ∧
    (sortFileTree .SortBySize false sizeExample).children.map FileInfo.name =
      ["y", "z", "x"] ∧
    (sortFileTree .SortBySize true sizeExample).children.map FileInfo.name =
      ["x", "z", "y"] := by
  refine ⟨?_, by decide, by decide⟩
  intro t hwf n hn
  exact (sorted_allNodes .SortBySize lessFn_size_asymm lessFn_size_negtrans
    t hwf n hn).imp (fun {a b} h => (lessFn_size_false_iff b a).1 h)

/-- Witness for C3: the sorted example's root is size-descending. -/
theorem filesize_C3_witness :
    (sortFileTree .SortBySize false sizeExample).children.Pairwise
      (fun a b => b.size ≤ a.size) :=
  filesize_C3.1 sizeExample (by decide)
    (sortFileTree .SortBySize false sizeExample) (self_mem_allNodes _)

/-- C4 counterexample: with the name key, `reverse = true` does NOT invert
the directories-first rule.  On the siblings `{A/, b.txt}` the forward sort
gives `[A, b.txt]`, so the claim demands `[b.txt, A]` from the reverse sort,
but the reverse sort also gives `[A, b.txt]`. -/
theorem filesize_C4_counterexample :
    (sortFileTree .SortByName false reverseExample).children.map
        FileInfo.name = ["A", "b.txt"] ∧
    (sortFileTree .SortByName true reverseExample).children.map
        FileInfo.name = ["A", "b.txt"] ∧
    (sortFileTree .SortByName true reverseExample).children.map
        FileInfo.name ≠ ["b.txt", "A"] := by
  refine ⟨by decide, by decide, by decide⟩

/-- C4 amended: the reverse flag negates the comparator for same-type pairs
and for the whole size sort, but the directories-first early return of the
name sort is not subject to it: on a directory/file pair the name comparator
is the same for both reverse values, always putting the directory first. -/
theorem filesize_C4_amended :
    ∀ (st : SortType) (a b : FileInfo),
      (a.isDir = b.isDir → lessFn st true a b = !(lessFn st false a b)) ∧
      (lessFn .SortBySize true a b = !(lessFn .SortBySize false a b)) ∧
      (a.isDir ≠ b.isDir →
        lessFn .SortByName true a b = lessFn .SortByName false a b ∧
          lessFn .SortByName true a b = a.isDir) := by
  intro st a b
  refine ⟨?_, by simp [lessFn], ?_⟩
  · intro h
    cases st
    · simp [lessFn, h]
    · simp [lessFn]
  · intro h
    have hbne : (a.isDir != b.isDir) = true := by
      simpa using h
    simp [lessFn, hbne]

/-- Witness for C4's amended claim at a directory/file pair. -/
theorem filesize_C4_amended_witness :
    lessFn .SortByName true (FileInfo.mk "A" 0 true "/r/A" [])
        (FileInfo.mk "b.txt" 4 false "/r/b.txt" []) =
      lessFn .SortByName false (FileInfo.mk "A" 0 true "/r/A" [])
        (FileInfo.mk "b.txt" 4 false "/r/b.txt" []) ∧
    lessFn .SortByName true (FileInfo.mk "A" 0 true "/r/A" [])
        (FileInfo.mk "b.txt" 4 false "/r/b.txt" []) =
      (FileInfo.mk "A" 0 true "/r/A" []).isDir :=
  (filesize_C4_amended .SortByName _ _).2.2 (by decide)

/-- C5: a child entry whose stat or readdir fails is skipped entirely: the
build of such an entry returns an error, and deleting an erroring entry from
a directory's entry list leaves the built parent (children and size alike)
unchanged, while the remaining entries are still processed. -/
theorem filesize_C5 :
    (∀ p n : String, buildFileTreeRecursive p (FSEntry.statError n) = none) ∧
    (∀ p n : String, buildFileTreeRecursive p (FSEntry.readDirError n) = none) ∧
    (∀ (p nm : String) (es1 es2 : List FSEntry) (e : FSEntry),
      buildFileTreeRecursive (joinPath p (FSEntry.name e)) e = none →
      buildFileTreeRecursive p (.dir nm (es1 ++ e :: es2)) =
        buildFileTreeRecursive p (.dir nm (es1 ++ es2))) := by
  refine ⟨fun p n => rfl, fun p n => rfl, ?_⟩
  intro p nm es1 es2 e h
  rw [buildFileTreeRecursive_dir, buildFileTreeRecursive_dir,
    buildChildren_skip p es1 es2 e h]

/-- Witness for C5: a stat-failing entry in the middle of a directory. -/
theorem filesize_C5_witness :
    buildFileTreeRecursive "/r"
        (.dir "r" [.file "a" 3, .statError "bad", .file "c" 5]) =
      buildFileTreeRecursive "/r" (.dir "r" [.file "a" 3, .file "c" 5]) :=
  filesize_C5.2.2 "/r" "r" [.file "a" 3] [.file "c" 5] (.statError "bad") rfl

/-- C6: `formatSize` picks binary units by the 1024-based thresholds,
printing two decimals for KB/MB/GB/TB and a plain integer count for B, with
the sample values of the specification. -/
theorem filesize_C6 :
    (∀ s : Int, 0 ≤ s → s < KB → formatSize s = toString s ++ " B") ∧
    (∀ s : Int, KB ≤ s → s < MB → formatSize s = fmtTwoDec s KB ++ " KB") ∧
    (∀ s : Int, MB ≤ s → s < GB → formatSize s = fmtTwoDec s MB ++ " MB") ∧
    (∀ s : Int, GB ≤ s → s < TB → formatSize s = fmtTwoDec s GB ++ " GB") ∧
    (∀ s : Int, TB ≤ s → formatSize s = fmtTwoDec s TB ++ " TB") ∧
    formatSize 0 = "0 B" ∧ formatSize 1023 = "1023 B" ∧
    formatSize 1024 = "1.00 KB" ∧ formatSize 1536 = "1.50 KB" ∧
    formatSize 1048576 = "1.00 MB" := by
  refine ⟨?_, ?_, ?_, ?_, ?_,
    by decide, by decide, by decide, by decide, by decide⟩
  · intro s h1 h2
    simp only [B, KB] at h2
    simp only [formatSize]
    rw [if_neg (by simp only [B, KB, MB, GB, TB]; omega),
      if_neg (by simp only [B, KB, MB, GB]; omega),
      if_neg (by simp only [B, KB, MB]; omega),
      if_neg (by simp only [B, KB]; omega)]
  · intro s h1 h2
    simp only [B, KB] at h1
    simp only [B, KB, MB] at h2
    simp only [formatSize]
    rw [if_neg (by simp only [B, KB, MB, GB, TB]; omega),
      if_neg (by simp only [B, KB, MB, GB]; omega),
      if_neg (by simp only [B, KB, MB]; omega),
      if_pos (by simp only [B, KB]; omega)]
  · intro s h1 h2
    simp only [B, KB, MB] at h1
    simp only [B, KB, MB, GB] at h2
    simp only [formatSize]
    rw [if_neg (by simp only [B, KB, MB, GB, TB]; omega),
      if_neg (by simp only [B, KB, MB, GB]; omega),
      if_pos (by simp only [B, KB, MB]; omega)]
  · intro s h1 h2
    simp only [B, KB, MB, GB] at h1
    simp only [B, KB, MB, GB, TB] at h2
    simp only [formatSize]
    rw [if_neg (by simp only [B, KB, MB, GB, TB]; omega),
      if_pos (by simp only [B, KB, MB, GB]; omega)]
  · intro s h1
    simp only [B, KB, MB, GB, TB] at h1
    simp only [formatSize]
    rw [if_pos (by simp only [B, KB, MB, GB, TB]; omega)]

/-- Witness for C6 at one point of each unit range. -/
theorem filesize_C6_witness :
    formatSize 7 = "7 B" ∧ formatSize 2048 = "2.00 KB" ∧
    formatSize 3145728 = "3.00 MB" ∧ formatSize 5368709120 = "5.00 GB" ∧
    formatSize 2199023255552 = "2.00 TB" :=
  ⟨(filesize_C6.1 7 (by decide) (by decide)).trans (by decide),
    (filesize_C6.2.1 2048 (by decide) (by decide)).trans (by decide),
    (filesize_C6.2.2.1 3145728 (by decide) (by decide)).trans (by decide),
    (filesize_C6.2.2.2.1 5368709120 (by decide) (by decide)).trans (by decide),
    (filesize_C6.2.2.2.2.1 2199023255552 (by decide)).trans (by decide)⟩

/-- C7: the console rendering emits, for every node, the prefix accumulated
from its ancestors' last-sibling markers (four spaces for a last sibling,
vertical bar plus three spaces otherwise) followed by the connector
(`└── ` for a last sibling, `├── ` otherwise, empty at the root), at every
depth; in particular the top-level invocation agrees with the ancestor-based
description started at the empty ancestor list. -/
theorem filesize_C7 :
    (∀ (t : FileInfo) (anc : List Bool) (isLast : Bool),
      printFileTree t (ancPrefix anc) isLast = renderSpec t anc isLast) ∧
    (∀ t : FileInfo, printFileTree t "" true = renderSpec t [] true) :=
  ⟨printEq, fun t => printEq t [] true⟩

/-- C8: sorting a directory's own children before recursing into the (new)
children produces exactly the tree `sortFileTree` (which recurses first and
sorts afterwards) produces: each level's sort is independent of the
descendants' ordering. -/
theorem filesize_C8 :
    ∀ (st : SortType) (rev : Bool) (n : String) (s : Int) (d : Bool)
      (p : String) (cs : List FileInfo),
      FileInfo.mk n s d p
          (sortFileTreeChildren st rev (sortSlice (lessFn st rev) cs)) =
        sortFileTree st rev (.mk n s d p cs) := by
  intro st rev n s d p cs
  rw [sortFileTree_mk]
  congr 1
  rw [sortFileTreeChildren_eq_map, sortFileTreeChildren_eq_map,
    sortSlice_map (lessFn st rev)
      (fun c => if c.isDir then sortFileTree st rev c else c)
      (fun a b => lessFn_sortStep st rev a b)]

/-- C9: `sortFileTree` only permutes: the root's fields are unchanged and
each node's child list holds the same multiset of (name, size, isDir, path)
observations, in a possibly different order; applied at every subtree this
covers every node of the tree. -/
theorem filesize_C9 :
    ∀ (st : SortType) (rev : Bool) (t : FileInfo),
      nodeKey (sortFileTree st rev t) = nodeKey t ∧
      List.Perm ((sortFileTree st rev t).children.map nodeKey)
        (t.children.map nodeKey) := by
  intro st rev t
  cases t with
  | mk n s d p cs =>
      constructor
      · simp [nodeKey]
      · simp only [sortFileTree_mk, FileInfo.children_mk]
        refine ((sortSlice_perm _ _).map nodeKey).trans ?_
        rw [sortFileTreeChildren_eq_map, List.map_map]
        have hcomp :
            (nodeKey ∘ fun c => if c.isDir then sortFileTree st rev c else c) =
              nodeKey := by
          funext c
          exact nodeKey_sortStep st rev c
        rw [hcomp]

/-- C10: every negative size falls through all the unit thresholds and is
printed as a signed integer byte count. -/
theorem filesize_C10 :
    ∀ s : Int, s < 0 → formatSize s = toString s ++ " B" := by
  intro s h
  simp only [formatSize]
  rw [if_neg (by simp only [B, KB, MB, GB, TB]; omega),
    if_neg (by simp only [B, KB, MB, GB]; omega),
    if_neg (by simp only [B, KB, MB]; omega),
    if_neg (by simp only [B, KB]; omega)]

/-- Witness for C10 at `-5`. -/
theorem filesize_C10_witness : formatSize (-5) = "-5 B" :=
  (filesize_C10 (-5) (by decide)).trans (by decide)
